import Mathlib

/-!
Shallow embedding of the Prolog syntax checker (`main.py`): a lexer turning
raw text (a list of characters) into a token stream ending in an EOF
sentinel, and a recursive-descent parser that consumes the stream and
accumulates syntax errors.  The parser's mutually recursive procedures are
modelled as fuel-indexed functions returning `Option Parser`; `none` means
the fuel ran out, and a fuel-sufficiency theorem below shows a linear
amount of fuel always suffices on streams ending in the EOF sentinel.
-/

/-- Token kinds: the closed set of group names of the lexer's category
patterns (`NUMBER`, `ATOM`, `VARIABLE`, `SPECIAL`, plus the `ERROR` tokens
for unrecognized characters and the final `EOF` sentinel). -/
inductive TKind where
  | NUMBER
  | ATOM
  | VARIABLE
  | SPECIAL
  | ERROR
  | EOF
deriving DecidableEq, Repr

/-- `kindName` renders a token kind the way the Python source stores it
(as the string tag used in the tuples `('NUMBER', value, line)` etc.). -/
def kindName : TKind → String
  | TKind.NUMBER => "NUMBER"
  | TKind.ATOM => "ATOM"
  | TKind.VARIABLE => "VARIABLE"
  | TKind.SPECIAL => "SPECIAL"
  | TKind.ERROR => "ERROR"
  | TKind.EOF => "EOF"

/-- A token `(kind, text, line)` as produced by `Lexer.tokenize`. -/
structure Token where
  kind : TKind
  text : String
  line : Nat
deriving DecidableEq, Repr

/-- A recorded syntax error: the message passed to `Parser.error`
together with the line number of the offending token. -/
structure ParseError where
  message : String
  line : Nat
deriving DecidableEq, Repr

/-- The formatted string `Parser.error` appends to `self.errors`:
`"Syntax Error at line {line}: {message}"`. -/
def renderError (e : ParseError) : String :=
  "Syntax Error at line " ++ toString e.line ++ ": " ++ e.message

-- ==================== Lexer ====================

/-- `\d`: a decimal digit (character codes 48-57). -/
def isDigitC (c : Char) : Bool := 48 ≤ c.toNat && c.toNat ≤ 57

/-- `[a-z]`: a lowercase letter, the first character of an ATOM. -/
def isLowerC (c : Char) : Bool := 97 ≤ c.toNat && c.toNat ≤ 122

/-- `[A-Z_]`: an uppercase letter or underscore, the first character of a
VARIABLE. -/
def isVarStartC (c : Char) : Bool := (65 ≤ c.toNat && c.toNat ≤ 90) || c = '_'

/-- `[a-zA-Z0-9_]`: a character that may continue an ATOM or VARIABLE. -/
def isIdentC (c : Char) : Bool :=
  isDigitC c || isLowerC c || (65 ≤ c.toNat && c.toNat ≤ 90) || c = '_'

/-- The single-character SPECIAL symbols of the character class
`[\.,\(\),]`. -/
def isSingleSpecialC (c : Char) : Bool := c = '.' || c = ',' || c = '(' || c = ')'

/-- Auxiliary bound used by the lexer's termination argument. -/
theorem length_dropWhile_le_self (p : α → Bool) (l : List α) :
    (l.dropWhile p).length ≤ l.length := by
  induction l with
  | nil => simp [List.dropWhile]
  | cons a l ih =>
    by_cases h : p a
    · simp only [List.dropWhile, h]
      exact Nat.le_succ_of_le ih
    · simp [List.dropWhile, h]

/-- The scanning loop of `Lexer.tokenize`: at the current position (the
remaining characters) it tries, in order, the categories NUMBER, ATOM,
VARIABLE, SPECIAL (two-character `?-` and `:-` before the single-character
symbols), SKIP (spaces and tabs), NEWLINE (incrementing the line counter)
and MISMATCH (any other character, emitted as an ERROR token), advancing
by the matched length; at end of input it appends the EOF sentinel
carrying the final line count. -/
def lexRun : List Char → Nat → List Token
  | [], line => [⟨TKind.EOF, "", line⟩]
  | c :: rest, line =>
    if isDigitC c then
      ⟨TKind.NUMBER, String.mk (c :: rest.takeWhile isDigitC), line⟩ ::
        lexRun (rest.dropWhile isDigitC) line
    else if isLowerC c then
      ⟨TKind.ATOM, String.mk (c :: rest.takeWhile isIdentC), line⟩ ::
        lexRun (rest.dropWhile isIdentC) line
    else if isVarStartC c then
      ⟨TKind.VARIABLE, String.mk (c :: rest.takeWhile isIdentC), line⟩ ::
        lexRun (rest.dropWhile isIdentC) line
    else if c = '?' then
      match rest with
      | '-' :: rest2 => ⟨TKind.SPECIAL, "?-", line⟩ :: lexRun rest2 line
      | r => ⟨TKind.ERROR, String.mk [c], line⟩ :: lexRun r line
    else if c = ':' then
      match rest with
      | '-' :: rest2 => ⟨TKind.SPECIAL, ":-", line⟩ :: lexRun rest2 line
      | r => ⟨TKind.ERROR, String.mk [c], line⟩ :: lexRun r line
    else if isSingleSpecialC c then
      ⟨TKind.SPECIAL, String.mk [c], line⟩ :: lexRun rest line
    else if c = ' ' || c = '\t' then
      lexRun rest line
    else if c = '\n' then
      lexRun rest (line + 1)
    else
      ⟨TKind.ERROR, String.mk [c], line⟩ :: lexRun rest line
termination_by cs _ => cs.length
decreasing_by
  all_goals simp_wf
  all_goals first
    | exact Nat.lt_succ_of_le (length_dropWhile_le_self _ _)
    | omega

/-- `Lexer.tokenize`: scan the whole text starting at line 1. -/
def tokenize (text : List Char) : List Token := lexRun text 1

-- ==================== Parser ====================

/-- Parser state: the token list, the cursor `self.pos`, and the
accumulated error list `self.errors` (kept structured as message/line
pairs; `Parser.errorMsgs` recovers the formatted strings of the source). -/
structure Parser where
  tokens : List Token
  pos : Nat
  errors : List ParseError
deriving DecidableEq, Repr

/-- `Parser.__init__`: fresh cursor at 0, empty error list. -/
def mkParser (tokens : List Token) : Parser := ⟨tokens, 0, []⟩

/-- The error strings exactly as the Python parser stores them. -/
def Parser.errorMsgs (p : Parser) : List String := p.errors.map renderError

/-- `self.tokens[self.pos]` (in every reachable state the cursor is in
bounds; the default is never consulted there). -/
def Parser.current_token (p : Parser) : Token :=
  p.tokens.getD p.pos ⟨TKind.EOF, "", 1⟩

/-- `Parser.advance`: increment the cursor unless it is already at the
last token (`self.pos < len(self.tokens) - 1`). -/
def Parser.advance (p : Parser) : Parser :=
  if p.pos < p.tokens.length - 1 then { p with pos := p.pos + 1 } else p

/-- `Parser.error`: append the formatted error for `message` at `line`. -/
def Parser.error (p : Parser) (message : String) (line : Nat) : Parser :=
  { p with errors := p.errors ++ [⟨message, line⟩] }

/-- How Python renders the optional expected value inside the mismatch
message (`None` when absent). -/
def optValueStr : Option String → String
  | none => "None"
  | some s => s

/-- The message recorded by `Parser.match` on a mismatch. -/
def matchFailMsg (expected_type : TKind) (expected_value : Option String)
    (token : Token) : String :=
  "Expected " ++ kindName expected_type ++ " \x27" ++ optValueStr expected_value ++
    "\x27 but found " ++ kindName token.kind ++ " \x27" ++ token.text ++ "\x27"

/-- `Parser.match`: if the current token has the expected kind (and, when
given, the expected text), advance and return `true`; otherwise record the
mismatch error at the current token's line and return `false` without
advancing. -/
def Parser.matchTok (p : Parser) (expected_type : TKind)
    (expected_value : Option String) : Parser × Bool :=
  let token := p.current_token
  if token.kind = expected_type ∧
      (expected_value = none ∨ expected_value = some token.text) then
    (p.advance, true)
  else
    (p.error (matchFailMsg expected_type expected_value token) token.line, false)

/-- The message of `parse_query`'s failure branch. -/
def queryStartMsg : String := "Query should start with \x27?-\x27"

/-- `Parser.parse_atom`: consume an ATOM token, otherwise record an error
and force one advance. -/
def parse_atom (p : Parser) : Parser :=
  if p.current_token.kind = TKind.ATOM then
    (p.matchTok TKind.ATOM none).1
  else
    ((p.error "Expected an atom" p.current_token.line).advance)

mutual

/-- `Parser.parse_program`: a query, or a clause list optionally followed
by a query. -/
def parse_program : Nat → Parser → Option Parser
  | 0, _ => none
  | fuel + 1, p =>
    if p.current_token.text = "?-" then
      parse_query fuel p
    else
      match parse_clause_list fuel p with
      | none => none
      | some p1 =>
        if p1.current_token.text = "?-" then parse_query fuel p1 else some p1

/-- `Parser.parse_clause_list`: parse clauses until `?-` or EOF. -/
def parse_clause_list : Nat → Parser → Option Parser
  | 0, _ => none
  | fuel + 1, p =>
    if p.current_token.kind ≠ TKind.EOF ∧ p.current_token.text ≠ "?-" then
      match parse_clause fuel p with
      | none => none
      | some p1 => parse_clause_list fuel p1
    else
      some p

/-- `Parser.parse_clause`: `predicate "."` or
`predicate ":-" predicate-list "."`; on neither terminator, record an
error and force one advance. -/
def parse_clause : Nat → Parser → Option Parser
  | 0, _ => none
  | fuel + 1, p =>
    match parse_predicate fuel p with
    | none => none
    | some p1 =>
      if p1.current_token.text = "." then
        some (p1.matchTok TKind.SPECIAL (some ".")).1
      else if p1.current_token.text = ":-" then
        match parse_predicate_list fuel (p1.matchTok TKind.SPECIAL (some ":-")).1 with
        | none => none
        | some p2 => some (p2.matchTok TKind.SPECIAL (some ".")).1
      else
        some ((p1.error
          "Clause must end with \x27.\x27 or use \x27:-\x27 followed by a predicate list and a \x27.\x27"
          p1.current_token.line).advance)

/-- `Parser.parse_query`: `"?-" predicate-list "."`; otherwise record the
query-start error (without advancing). -/
def parse_query : Nat → Parser → Option Parser
  | 0, _ => none
  | fuel + 1, p =>
    if p.current_token.text = "?-" then
      match parse_predicate_list fuel (p.matchTok TKind.SPECIAL (some "?-")).1 with
      | none => none
      | some p1 => some (p1.matchTok TKind.SPECIAL (some ".")).1
    else
      some (p.error queryStartMsg p.current_token.line)

/-- `Parser.parse_predicate_list`: `predicate ("," predicate)*`. -/
def parse_predicate_list : Nat → Parser → Option Parser
  | 0, _ => none
  | fuel + 1, p =>
    match parse_predicate fuel p with
    | none => none
    | some p1 => parse_predicate_list_while fuel p1

/-- The `while` loop of `parse_predicate_list`. -/
def parse_predicate_list_while : Nat → Parser → Option Parser
  | 0, _ => none
  | fuel + 1, p =>
    if p.current_token.text = "," then
      match parse_predicate fuel (p.matchTok TKind.SPECIAL (some ",")).1 with
      | none => none
      | some p1 => parse_predicate_list_while fuel p1
    else
      some p

/-- `Parser.parse_predicate`: `atom [ "(" term-list ")" ]`; when the
current token is not an atom, record an error and force one advance. -/
def parse_predicate : Nat → Parser → Option Parser
  | 0, _ => none
  | fuel + 1, p =>
    if p.current_token.kind = TKind.ATOM then
      let p1 := parse_atom p
      if p1.current_token.text = "(" then
        match parse_term_list fuel (p1.matchTok TKind.SPECIAL (some "(")).1 with
        | none => none
        | some p2 => some (p2.matchTok TKind.SPECIAL (some ")")).1
      else
        some p1
    else
      some ((p.error "Predicate must start with an atom" p.current_token.line).advance)

/-- `Parser.parse_term_list`: `term ("," term)*`. -/
def parse_term_list : Nat → Parser → Option Parser
  | 0, _ => none
  | fuel + 1, p =>
    match parse_term fuel p with
    | none => none
    | some p1 => parse_term_list_while fuel p1

/-- The `while` loop of `parse_term_list`. -/
def parse_term_list_while : Nat → Parser → Option Parser
  | 0, _ => none
  | fuel + 1, p =>
    if p.current_token.text = "," then
      match parse_term fuel (p.matchTok TKind.SPECIAL (some ",")).1 with
      | none => none
      | some p1 => parse_term_list_while fuel p1
    else
      some p

/-- `Parser.parse_term`: an atom (possibly a structure
`atom "(" term-list ")"`), a variable, or a numeral; anything else records
an error and forces one advance. -/
def parse_term : Nat → Parser → Option Parser
  | 0, _ => none
  | fuel + 1, p =>
    if p.current_token.kind = TKind.ATOM then
      let p1 := parse_atom p
      if p1.current_token.text = "(" then
        match parse_term_list fuel (p1.matchTok TKind.SPECIAL (some "(")).1 with
        | none => none
        | some p2 => some (p2.matchTok TKind.SPECIAL (some ")")).1
      else
        some p1
    else if p.current_token.kind = TKind.VARIABLE then
      some (p.matchTok TKind.VARIABLE none).1
    else if p.current_token.kind = TKind.NUMBER then
      some (p.matchTok TKind.NUMBER none).1
    else
      some ((p.error "Invalid term: expected atom, variable, numeral, or structure"
        p.current_token.line).advance)

end

/-- Sufficient fuel for `parse_program` on a given token list (shown
sufficient by the fuel theorems below). -/
def enoughFuel (tokens : List Token) : Nat := 8 * tokens.length + 8

/-- `process_file` without the file I/O: tokenize the text, run
`parse_program` on a fresh parser, return the error list. -/
def process_text (content : List Char) : Option (List ParseError) :=
  let tokens := tokenize content
  (parse_program (enoughFuel tokens) (mkParser tokens)).map Parser.errors

/-- The error list `parse_program` leaves for a given token list and fuel
(empty when the fuel runs out, which the fuel theorems exclude for
sentinel-terminated streams). -/
def programErrors (tokens : List Token) (fuel : Nat) : List ParseError :=
  match parse_program fuel (mkParser tokens) with
  | some q => q.errors
  | none => []

/-- Two independent runs of the pipeline on the same text, each
constructing a fresh lexer and parser. -/
def runTwice (content : List Char) : Option (List ParseError) × Option (List ParseError) :=
  (process_text content, process_text content)

-- ==================== Well-formed streams and basic state lemmas ====================

/-- A token list ends with the EOF sentinel (kind `EOF`, empty text) that
`Lexer.tokenize` always appends. -/
def endsWithEOF (tokens : List Token) : Bool :=
  match tokens.getLast? with
  | some t => t.kind == TKind.EOF && t.text == ""
  | none => false

/-- Parser-state well-formedness: the stream ends with the EOF sentinel
and the cursor is in bounds (at most the index of the sentinel). -/
def WFState (p : Parser) : Prop :=
  endsWithEOF p.tokens = true ∧ p.pos + 1 ≤ p.tokens.length

theorem endsWithEOF_last {tokens : List Token} (h : endsWithEOF tokens = true) :
    ∃ line, tokens.getLast? = some ⟨TKind.EOF, "", line⟩ := by
  unfold endsWithEOF at h
  cases hl : tokens.getLast? with
  | none => rw [hl] at h; exact absurd h (by simp)
  | some t =>
    rw [hl] at h
    simp only [Bool.and_eq_true, beq_iff_eq] at h
    refine ⟨t.line, ?_⟩
    cases t
    simp_all

theorem endsWithEOF_ne_nil {tokens : List Token} (h : endsWithEOF tokens = true) :
    1 ≤ tokens.length := by
  cases tokens with
  | nil => exact absurd h (by simp [endsWithEOF])
  | cons a l => simp

/-- At the sentinel position the current token is the EOF sentinel. -/
theorem cur_at_last {p : Parser} (hWF : WFState p)
    (hlast : p.pos + 1 = p.tokens.length) :
    p.current_token.kind = TKind.EOF ∧ p.current_token.text = "" := by
  obtain ⟨hEOF, _⟩ := hWF
  obtain ⟨line, hline⟩ := endsWithEOF_last hEOF
  have hget : p.tokens[p.pos]? = some ⟨TKind.EOF, "", line⟩ := by
    rw [← hline, List.getLast?_eq_getElem?]
    congr 1
    omega
  simp [Parser.current_token, hget]

/-- A current token that is not the EOF sentinel lies strictly before the
sentinel position. -/
theorem cur_lt_last {p : Parser} (hWF : WFState p)
    (h : p.current_token.kind ≠ TKind.EOF ∨ p.current_token.text ≠ "") :
    p.pos + 2 ≤ p.tokens.length := by
  by_contra hcon
  have hlast : p.pos + 1 = p.tokens.length := by
    have := hWF.2
    omega
  have := cur_at_last hWF hlast
  rcases h with h | h
  · exact h this.1
  · exact h this.2

-- ==================== Pure-step lemmas ====================

theorem advance_tokens (p : Parser) : p.advance.tokens = p.tokens := by
  unfold Parser.advance; split <;> rfl

theorem advance_errors (p : Parser) : p.advance.errors = p.errors := by
  unfold Parser.advance; split <;> rfl

theorem advance_pos_le (p : Parser) : p.pos ≤ p.advance.pos := by
  unfold Parser.advance; split <;> simp

theorem advance_pos_of_lt {p : Parser} (h : p.pos + 2 ≤ p.tokens.length) :
    p.advance.pos = p.pos + 1 := by
  unfold Parser.advance
  rw [if_pos (by omega)]

theorem advance_pos_bound {p : Parser} (h : p.pos + 1 ≤ p.tokens.length) :
    p.advance.pos + 1 ≤ p.tokens.length := by
  unfold Parser.advance
  split
  next h2 => dsimp only; omega
  next => exact h

theorem advance_noop {p : Parser} (h : ¬ p.pos < p.tokens.length - 1) :
    p.advance = p := by
  unfold Parser.advance
  rw [if_neg h]

theorem error_tokens (p : Parser) (m : String) (l : Nat) :
    (p.error m l).tokens = p.tokens := rfl

theorem error_pos (p : Parser) (m : String) (l : Nat) :
    (p.error m l).pos = p.pos := rfl

theorem error_errors (p : Parser) (m : String) (l : Nat) :
    (p.error m l).errors = p.errors ++ [⟨m, l⟩] := rfl

theorem error_current (p : Parser) (m : String) (l : Nat) :
    (p.error m l).current_token = p.current_token := rfl

theorem matchTok_fst_tokens (p : Parser) (k : TKind) (v : Option String) :
    (p.matchTok k v).1.tokens = p.tokens := by
  simp only [Parser.matchTok]
  split
  · exact advance_tokens p
  · rfl

theorem matchTok_fst_pos_le (p : Parser) (k : TKind) (v : Option String) :
    p.pos ≤ (p.matchTok k v).1.pos := by
  simp only [Parser.matchTok]
  split
  · exact advance_pos_le p
  · simp [error_pos]

theorem matchTok_fst_pos_ub (p : Parser) (k : TKind) (v : Option String) :
    (p.matchTok k v).1.pos ≤ p.pos + 1 := by
  simp only [Parser.matchTok]
  split
  · unfold Parser.advance; split <;> simp
  · simp [error_pos]

theorem matchTok_fst_pos_bound {p : Parser} (k : TKind) (v : Option String)
    (h : p.pos + 1 ≤ p.tokens.length) :
    (p.matchTok k v).1.pos + 1 ≤ p.tokens.length := by
  simp only [Parser.matchTok]
  split
  · exact advance_pos_bound h
  · simpa [error_pos] using h

theorem matchTok_success {p : Parser} {k : TKind} {v : Option String}
    (hk : p.current_token.kind = k)
    (hv : v = none ∨ v = some p.current_token.text) :
    p.matchTok k v = (p.advance, true) := by
  simp only [Parser.matchTok]
  rw [if_pos ⟨hk, hv⟩]

theorem matchTok_fst_errors (p : Parser) (k : TKind) (v : Option String) :
    (p.matchTok k v).1.errors = p.errors ∨
      (p.matchTok k v).1.errors =
        p.errors ++ [⟨matchFailMsg k v p.current_token, p.current_token.line⟩] := by
  simp only [Parser.matchTok]
  split
  · exact Or.inl (advance_errors p)
  · exact Or.inr (error_errors p _ _)

theorem parse_atom_tokens (p : Parser) : (parse_atom p).tokens = p.tokens := by
  unfold parse_atom
  split
  · exact matchTok_fst_tokens p _ _
  · rw [advance_tokens, error_tokens]

theorem parse_atom_pos_of_lt {p : Parser} (h : p.pos + 2 ≤ p.tokens.length) :
    (parse_atom p).pos = p.pos + 1 := by
  unfold parse_atom
  split
  · next hA =>
    rw [matchTok_success hA (Or.inl rfl)]
    exact advance_pos_of_lt h
  · rw [advance_pos_of_lt (p := p.error _ _) (by simpa [error_tokens, error_pos] using h),
      error_pos]

theorem parse_atom_pos_le (p : Parser) : p.pos ≤ (parse_atom p).pos := by
  unfold parse_atom
  split
  · exact matchTok_fst_pos_le p _ _
  · calc p.pos = (p.error _ _).pos := rfl
    _ ≤ _ := advance_pos_le _

theorem parse_atom_pos_bound {p : Parser} (h : p.pos + 1 ≤ p.tokens.length) :
    (parse_atom p).pos + 1 ≤ p.tokens.length := by
  unfold parse_atom
  split
  · exact matchTok_fst_pos_bound _ _ h
  · rw [← error_tokens p "Expected an atom" p.current_token.line]
    exact advance_pos_bound (by simpa [error_tokens, error_pos] using h)

theorem parse_atom_errors (p : Parser) :
    (parse_atom p).errors = p.errors ∨
      (parse_atom p).errors = p.errors ++ [⟨"Expected an atom", p.current_token.line⟩] := by
  unfold parse_atom
  split
  · next hA =>
    rw [matchTok_success hA (Or.inl rfl)]
    exact Or.inl (advance_errors p)
  · rw [advance_errors, error_errors]
    exact Or.inr rfl

-- ==================== The fuel-sufficiency induction ====================

/-- Relation between a parser state and the state a parsing procedure
returns: same token list, cursor moved monotonically and still in
bounds. -/
def Ret (p q : Parser) : Prop :=
  q.tokens = p.tokens ∧ p.pos ≤ q.pos ∧ q.pos + 1 ≤ p.tokens.length

theorem Ret.trans {p q r : Parser} (h1 : Ret p q) (h2 : Ret q r) : Ret p r :=
  ⟨h2.1.trans h1.1, h1.2.1.trans h2.2.1, by rw [← h1.1]; exact h2.2.2⟩

theorem Ret.wf {p q : Parser} (h : Ret p q) (hWF : WFState p) : WFState q :=
  ⟨by rw [h.1]; exact hWF.1, by rw [h.1]; exact h.2.2⟩

theorem Ret.advance {p : Parser} (h : p.pos + 1 ≤ p.tokens.length) :
    Ret p p.advance :=
  ⟨advance_tokens p, advance_pos_le p, advance_pos_bound h⟩

theorem Ret.ofMatchTok {p : Parser} (k : TKind) (v : Option String)
    (h : p.pos + 1 ≤ p.tokens.length) : Ret p (p.matchTok k v).1 :=
  ⟨matchTok_fst_tokens p k v, matchTok_fst_pos_le p k v, matchTok_fst_pos_bound k v h⟩

theorem Ret.ofError {p : Parser} (m : String) (l : Nat)
    (h : p.pos + 1 ≤ p.tokens.length) : Ret p (p.error m l) :=
  ⟨error_tokens p m l, le_of_eq (error_pos p m l).symm, by rw [error_pos]; exact h⟩

theorem Ret.ofParseAtom {p : Parser} (h : p.pos + 1 ≤ p.tokens.length) :
    Ret p (parse_atom p) :=
  ⟨parse_atom_tokens p, parse_atom_pos_le p, parse_atom_pos_bound h⟩

/-- Fuel sufficiency statement for `parse_term` (with forced progress
away from the sentinel). -/
def TermS (fuel : Nat) : Prop :=
  ∀ p : Parser, WFState p → 8 * (p.tokens.length - 1 - p.pos) + 2 ≤ fuel →
    ∃ q, parse_term fuel p = some q ∧ Ret p q ∧
      (p.pos + 2 ≤ p.tokens.length → p.pos < q.pos)

/-- Fuel sufficiency statement for the loop of `parse_term_list`. -/
def TermListWhileS (fuel : Nat) : Prop :=
  ∀ p : Parser, WFState p → 8 * (p.tokens.length - 1 - p.pos) + 3 ≤ fuel →
    ∃ q, parse_term_list_while fuel p = some q ∧ Ret p q

/-- Fuel sufficiency statement for `parse_term_list`. -/
def TermListS (fuel : Nat) : Prop :=
  ∀ p : Parser, WFState p → 8 * (p.tokens.length - 1 - p.pos) + 4 ≤ fuel →
    ∃ q, parse_term_list fuel p = some q ∧ Ret p q

/-- Fuel sufficiency statement for `parse_predicate` (with forced
progress away from the sentinel). -/
def PredS (fuel : Nat) : Prop :=
  ∀ p : Parser, WFState p → 8 * (p.tokens.length - 1 - p.pos) + 2 ≤ fuel →
    ∃ q, parse_predicate fuel p = some q ∧ Ret p q ∧
      (p.pos + 2 ≤ p.tokens.length → p.pos < q.pos)

/-- Fuel sufficiency statement for the loop of `parse_predicate_list`. -/
def PredListWhileS (fuel : Nat) : Prop :=
  ∀ p : Parser, WFState p → 8 * (p.tokens.length - 1 - p.pos) + 3 ≤ fuel →
    ∃ q, parse_predicate_list_while fuel p = some q ∧ Ret p q

/-- Fuel sufficiency statement for `parse_predicate_list`. -/
def PredListS (fuel : Nat) : Prop :=
  ∀ p : Parser, WFState p → 8 * (p.tokens.length - 1 - p.pos) + 4 ≤ fuel →
    ∃ q, parse_predicate_list fuel p = some q ∧ Ret p q

/-- Fuel sufficiency statement for `parse_query`. -/
def QueryS (fuel : Nat) : Prop :=
  ∀ p : Parser, WFState p → 8 * (p.tokens.length - 1 - p.pos) + 5 ≤ fuel →
    ∃ q, parse_query fuel p = some q ∧ Ret p q

/-- Fuel sufficiency statement for `parse_clause` (with forced progress
away from the sentinel). -/
def ClauseS (fuel : Nat) : Prop :=
  ∀ p : Parser, WFState p → 8 * (p.tokens.length - 1 - p.pos) + 5 ≤ fuel →
    ∃ q, parse_clause fuel p = some q ∧ Ret p q ∧
      (p.pos + 2 ≤ p.tokens.length → p.pos < q.pos)

/-- Fuel sufficiency statement for `parse_clause_list`. -/
def ClauseListS (fuel : Nat) : Prop :=
  ∀ p : Parser, WFState p → 8 * (p.tokens.length - 1 - p.pos) + 6 ≤ fuel →
    ∃ q, parse_clause_list fuel p = some q ∧ Ret p q

/-- Fuel sufficiency statement for `parse_program`. -/
def ProgramS (fuel : Nat) : Prop :=
  ∀ p : Parser, WFState p → 8 * (p.tokens.length - 1 - p.pos) + 7 ≤ fuel →
    ∃ q, parse_program fuel p = some q ∧ Ret p q

/-- All ten fuel sufficiency statements bundled for the induction on
fuel. -/
def AllGood (fuel : Nat) : Prop :=
  TermS fuel ∧ TermListWhileS fuel ∧ TermListS fuel ∧ PredS fuel ∧
    PredListWhileS fuel ∧ PredListS fuel ∧ QueryS fuel ∧ ClauseS fuel ∧
    ClauseListS fuel ∧ ProgramS fuel

/-- The shared `atom "(" term-list ")"` structure branch of `parse_term`
and `parse_predicate`. -/
theorem structure_branch {fuel : Nat} (ihTL : TermListS fuel) {p : Parser}
    (hWF : WFState p) (hfuel : 8 * (p.tokens.length - 1 - p.pos) + 2 ≤ fuel + 1)
    (hA : p.current_token.kind = TKind.ATOM) :
    ∃ q1, parse_term_list fuel ((parse_atom p).matchTok TKind.SPECIAL (some "(")).1 = some q1 ∧
      Ret p (q1.matchTok TKind.SPECIAL (some ")")).1 ∧
      p.pos < ((q1.matchTok TKind.SPECIAL (some ")")).1).pos := by
  have hlt : p.pos + 2 ≤ p.tokens.length :=
    cur_lt_last hWF (Or.inl (by rw [hA]; decide))
  have h1 : Ret p (parse_atom p) := Ret.ofParseAtom (by omega)
  have hp1pos : (parse_atom p).pos = p.pos + 1 := parse_atom_pos_of_lt hlt
  have h2 : Ret (parse_atom p) ((parse_atom p).matchTok TKind.SPECIAL (some "(")).1 :=
    Ret.ofMatchTok _ _ (by rw [h1.1]; exact h1.2.2)
  have h12 : Ret p ((parse_atom p).matchTok TKind.SPECIAL (some "(")).1 := h1.trans h2
  have hWF2 : WFState ((parse_atom p).matchTok TKind.SPECIAL (some "(")).1 := h12.wf hWF
  have hlen2 : (((parse_atom p).matchTok TKind.SPECIAL (some "(")).1).tokens.length
      = p.tokens.length := by rw [h12.1]
  have hpos2 : p.pos + 1 ≤ (((parse_atom p).matchTok TKind.SPECIAL (some "(")).1).pos := by
    have := matchTok_fst_pos_le (parse_atom p) TKind.SPECIAL (some "(")
    omega
  obtain ⟨q1, hq1, hq1ret⟩ := ihTL _ hWF2 (by rw [hlen2]; omega)
  have h3 : Ret p q1 := h12.trans hq1ret
  have h4 : Ret q1 (q1.matchTok TKind.SPECIAL (some ")")).1 :=
    Ret.ofMatchTok _ _ (by rw [h3.1]; exact h3.2.2)
  refine ⟨q1, hq1, h3.trans h4, ?_⟩
  have := matchTok_fst_pos_le q1 TKind.SPECIAL (some ")")
  have h5 := hq1ret.2.1
  omega

theorem step_term {fuel : Nat} (ih : AllGood fuel) : TermS (fuel + 1) := by
  obtain ⟨ihT, ihTLW, ihTL, ihP, ihPLW, ihPL, ihQ, ihC, ihCL, ihProg⟩ := ih
  intro p hWF hfuel
  by_cases hA : p.current_token.kind = TKind.ATOM
  · have hlt : p.pos + 2 ≤ p.tokens.length :=
      cur_lt_last hWF (Or.inl (by rw [hA]; decide))
    by_cases hParen : (parse_atom p).current_token.text = "("
    · obtain ⟨q1, hq1, hret, hprog⟩ := structure_branch ihTL hWF hfuel hA
      refine ⟨(q1.matchTok TKind.SPECIAL (some ")")).1, ?_, hret, fun _ => hprog⟩
      simp only [parse_term]
      rw [if_pos hA, if_pos hParen, hq1]
    · refine ⟨parse_atom p, ?_, Ret.ofParseAtom hWF.2, ?_⟩
      · simp only [parse_term]
        rw [if_pos hA, if_neg hParen]
      · intro _
        rw [parse_atom_pos_of_lt hlt]
        omega
  · by_cases hV : p.current_token.kind = TKind.VARIABLE
    · have hlt : p.pos + 2 ≤ p.tokens.length :=
        cur_lt_last hWF (Or.inl (by rw [hV]; decide))
      refine ⟨(p.matchTok TKind.VARIABLE none).1, ?_, Ret.ofMatchTok _ _ hWF.2, ?_⟩
      · simp only [parse_term]
        rw [if_neg hA, if_pos hV]
      · intro _
        rw [matchTok_success hV (Or.inl rfl)]
        dsimp only
        rw [advance_pos_of_lt hlt]
        omega
    · by_cases hN : p.current_token.kind = TKind.NUMBER
      · have hlt : p.pos + 2 ≤ p.tokens.length :=
          cur_lt_last hWF (Or.inl (by rw [hN]; decide))
        refine ⟨(p.matchTok TKind.NUMBER none).1, ?_, Ret.ofMatchTok _ _ hWF.2, ?_⟩
        · simp only [parse_term]
          rw [if_neg hA, if_neg hV, if_pos hN]
        · intro _
          rw [matchTok_success hN (Or.inl rfl)]
          dsimp only
          rw [advance_pos_of_lt hlt]
          omega
      · refine ⟨((p.error "Invalid term: expected atom, variable, numeral, or structure"
            p.current_token.line).advance), ?_, ?_, ?_⟩
        · simp only [parse_term]
          rw [if_neg hA, if_neg hV, if_neg hN]
        · exact (Ret.ofError _ _ hWF.2).trans
            (Ret.advance (by rw [error_pos, error_tokens]; exact hWF.2))
        · intro hlt2
          have h5 := advance_pos_of_lt
            (p := p.error "Invalid term: expected atom, variable, numeral, or structure"
              p.current_token.line)
            (by rw [error_pos, error_tokens]; exact hlt2)
          rw [error_pos] at h5
          omega

theorem step_term_list_while {fuel : Nat} (ih : AllGood fuel) :
    TermListWhileS (fuel + 1) := by
  obtain ⟨ihT, ihTLW, ihTL, ihP, ihPLW, ihPL, ihQ, ihC, ihCL, ihProg⟩ := ih
  intro p hWF hfuel
  by_cases hC : p.current_token.text = ","
  · have hlt : p.pos + 2 ≤ p.tokens.length :=
      cur_lt_last hWF (Or.inr (by rw [hC]; decide))
    have h1 : Ret p (p.matchTok TKind.SPECIAL (some ",")).1 :=
      Ret.ofMatchTok _ _ hWF.2
    have hlen1 : ((p.matchTok TKind.SPECIAL (some ",")).1).tokens.length
        = p.tokens.length := by rw [h1.1]
    obtain ⟨q1, hq1, hq1ret, hq1prog⟩ :=
      ihT _ (h1.wf hWF) (by have := h1.2.1; omega)
    have hlenq1 : q1.tokens.length = p.tokens.length := by
      rw [(h1.trans hq1ret).1]
    have hq1pos : p.pos + 1 ≤ q1.pos := by
      by_cases hK : p.current_token.kind = TKind.SPECIAL
      · have hadv : (p.matchTok TKind.SPECIAL (some ",")).1 = p.advance := by
          rw [matchTok_success hK (Or.inr (by rw [hC]))]
        have hp1 : ((p.matchTok TKind.SPECIAL (some ",")).1).pos = p.pos + 1 := by
          rw [hadv, advance_pos_of_lt hlt]
        have := hq1ret.2.1
        omega
      · have hfail : (p.matchTok TKind.SPECIAL (some ",")).1
            = p.error (matchFailMsg TKind.SPECIAL (some ",") p.current_token)
                p.current_token.line := by
          simp only [Parser.matchTok]
          rw [if_neg]
          intro hcon
          exact hK hcon.1
        have hp1pos : ((p.matchTok TKind.SPECIAL (some ",")).1).pos = p.pos := by
          rw [hfail, error_pos]
        have hcur : ((p.matchTok TKind.SPECIAL (some ",")).1).current_token
            = p.current_token := by rw [hfail]; exact error_current p _ _
        have hprog := hq1prog (by rw [hp1pos, hlen1]; exact hlt)
        omega
    obtain ⟨q2, hq2, hq2ret⟩ := ihTLW q1 (hq1ret.wf (h1.wf hWF))
      (by rw [hlenq1]; omega)
    refine ⟨q2, ?_, (h1.trans hq1ret).trans hq2ret⟩
    simp only [parse_term_list_while]
    rw [if_pos hC, hq1]
    exact hq2
  · refine ⟨p, ?_, ⟨rfl, Nat.le_refl _, hWF.2⟩⟩
    simp only [parse_term_list_while]
    rw [if_neg hC]

theorem step_term_list {fuel : Nat} (ih : AllGood fuel) : TermListS (fuel + 1) := by
  obtain ⟨ihT, ihTLW, ihTL, ihP, ihPLW, ihPL, ihQ, ihC, ihCL, ihProg⟩ := ih
  intro p hWF hfuel
  obtain ⟨q1, hq1, hq1ret, _⟩ := ihT p hWF (by omega)
  have hlenq1 : q1.tokens.length = p.tokens.length := by rw [hq1ret.1]
  obtain ⟨q2, hq2, hq2ret⟩ := ihTLW q1 (hq1ret.wf hWF)
    (by have := hq1ret.2.1; rw [hlenq1]; omega)
  refine ⟨q2, ?_, hq1ret.trans hq2ret⟩
  simp only [parse_term_list]
  rw [hq1]
  exact hq2

theorem step_pred {fuel : Nat} (ih : AllGood fuel) : PredS (fuel + 1) := by
  obtain ⟨ihT, ihTLW, ihTL, ihP, ihPLW, ihPL, ihQ, ihC, ihCL, ihProg⟩ := ih
  intro p hWF hfuel
  by_cases hA : p.current_token.kind = TKind.ATOM
  · have hlt : p.pos + 2 ≤ p.tokens.length :=
      cur_lt_last hWF (Or.inl (by rw [hA]; decide))
    by_cases hParen : (parse_atom p).current_token.text = "("
    · obtain ⟨q1, hq1, hret, hprog⟩ := structure_branch ihTL hWF hfuel hA
      refine ⟨(q1.matchTok TKind.SPECIAL (some ")")).1, ?_, hret, fun _ => hprog⟩
      simp only [parse_predicate]
      rw [if_pos hA, if_pos hParen, hq1]
    · refine ⟨parse_atom p, ?_, Ret.ofParseAtom hWF.2, ?_⟩
      · simp only [parse_predicate]
        rw [if_pos hA, if_neg hParen]
      · intro _
        rw [parse_atom_pos_of_lt hlt]
        omega
  · refine ⟨((p.error "Predicate must start with an atom" p.current_token.line).advance),
      ?_, ?_, ?_⟩
    · simp only [parse_predicate]
      rw [if_neg hA]
    · exact (Ret.ofError _ _ hWF.2).trans
        (Ret.advance (by rw [error_pos, error_tokens]; exact hWF.2))
    · intro hlt2
      have h5 := advance_pos_of_lt
        (p := p.error "Predicate must start with an atom" p.current_token.line)
        (by rw [error_pos, error_tokens]; exact hlt2)
      rw [error_pos] at h5
      omega

theorem step_pred_list_while {fuel : Nat} (ih : AllGood fuel) :
    PredListWhileS (fuel + 1) := by
  obtain ⟨ihT, ihTLW, ihTL, ihP, ihPLW, ihPL, ihQ, ihC, ihCL, ihProg⟩ := ih
  intro p hWF hfuel
  by_cases hC : p.current_token.text = ","
  · have hlt : p.pos + 2 ≤ p.tokens.length :=
      cur_lt_last hWF (Or.inr (by rw [hC]; decide))
    have h1 : Ret p (p.matchTok TKind.SPECIAL (some ",")).1 :=
      Ret.ofMatchTok _ _ hWF.2
    have hlen1 : ((p.matchTok TKind.SPECIAL (some ",")).1).tokens.length
        = p.tokens.length := by rw [h1.1]
    obtain ⟨q1, hq1, hq1ret, hq1prog⟩ :=
      ihP _ (h1.wf hWF) (by have := h1.2.1; omega)
    have hlenq1 : q1.tokens.length = p.tokens.length := by
      rw [(h1.trans hq1ret).1]
    have hq1pos : p.pos + 1 ≤ q1.pos := by
      by_cases hK : p.current_token.kind = TKind.SPECIAL
      · have hadv : (p.matchTok TKind.SPECIAL (some ",")).1 = p.advance := by
          rw [matchTok_success hK (Or.inr (by rw [hC]))]
        have hp1 : ((p.matchTok TKind.SPECIAL (some ",")).1).pos = p.pos + 1 := by
          rw [hadv, advance_pos_of_lt hlt]
        have := hq1ret.2.1
        omega
      · have hfail : (p.matchTok TKind.SPECIAL (some ",")).1
            = p.error (matchFailMsg TKind.SPECIAL (some ",") p.current_token)
                p.current_token.line := by
          simp only [Parser.matchTok]
          rw [if_neg]
          intro hcon
          exact hK hcon.1
        have hp1pos : ((p.matchTok TKind.SPECIAL (some ",")).1).pos = p.pos := by
          rw [hfail, error_pos]
        have hprog := hq1prog (by rw [hp1pos, hlen1]; exact hlt)
        omega
    obtain ⟨q2, hq2, hq2ret⟩ := ihPLW q1 (hq1ret.wf (h1.wf hWF))
      (by rw [hlenq1]; omega)
    refine ⟨q2, ?_, (h1.trans hq1ret).trans hq2ret⟩
    simp only [parse_predicate_list_while]
    rw [if_pos hC, hq1]
    exact hq2
  · refine ⟨p, ?_, ⟨rfl, Nat.le_refl _, hWF.2⟩⟩
    simp only [parse_predicate_list_while]
    rw [if_neg hC]

theorem step_pred_list {fuel : Nat} (ih : AllGood fuel) : PredListS (fuel + 1) := by
  obtain ⟨ihT, ihTLW, ihTL, ihP, ihPLW, ihPL, ihQ, ihC, ihCL, ihProg⟩ := ih
  intro p hWF hfuel
  obtain ⟨q1, hq1, hq1ret, _⟩ := ihP p hWF (by omega)
  have hlenq1 : q1.tokens.length = p.tokens.length := by rw [hq1ret.1]
  obtain ⟨q2, hq2, hq2ret⟩ := ihPLW q1 (hq1ret.wf hWF)
    (by have := hq1ret.2.1; rw [hlenq1]; omega)
  refine ⟨q2, ?_, hq1ret.trans hq2ret⟩
  simp only [parse_predicate_list]
  rw [hq1]
  exact hq2

theorem step_query {fuel : Nat} (ih : AllGood fuel) : QueryS (fuel + 1) := by
  obtain ⟨ihT, ihTLW, ihTL, ihP, ihPLW, ihPL, ihQ, ihC, ihCL, ihProg⟩ := ih
  intro p hWF hfuel
  by_cases hQm : p.current_token.text = "?-"
  · have h1 : Ret p (p.matchTok TKind.SPECIAL (some "?-")).1 :=
      Ret.ofMatchTok _ _ hWF.2
    have hlen1 : ((p.matchTok TKind.SPECIAL (some "?-")).1).tokens.length
        = p.tokens.length := by rw [h1.1]
    obtain ⟨q1, hq1, hq1ret⟩ := ihPL _ (h1.wf hWF)
      (by have := h1.2.1; omega)
    have h2 : Ret p q1 := h1.trans hq1ret
    have h3 : Ret q1 (q1.matchTok TKind.SPECIAL (some ".")).1 :=
      Ret.ofMatchTok _ _ (by rw [h2.1]; exact h2.2.2)
    refine ⟨(q1.matchTok TKind.SPECIAL (some ".")).1, ?_, h2.trans h3⟩
    simp only [parse_query]
    rw [if_pos hQm, hq1]
  · refine ⟨p.error queryStartMsg p.current_token.line, ?_, Ret.ofError _ _ hWF.2⟩
    simp only [parse_query]
    rw [if_neg hQm]

theorem step_clause {fuel : Nat} (ih : AllGood fuel) : ClauseS (fuel + 1) := by
  obtain ⟨ihT, ihTLW, ihTL, ihP, ihPLW, ihPL, ihQ, ihC, ihCL, ihProg⟩ := ih
  intro p hWF hfuel
  obtain ⟨p1, hp1, hp1ret, hp1prog⟩ := ihP p hWF (by omega)
  have hlen1 : p1.tokens.length = p.tokens.length := by rw [hp1ret.1]
  have hWF1 : WFState p1 := hp1ret.wf hWF
  by_cases hDot : p1.current_token.text = "."
  · have h2 : Ret p1 (p1.matchTok TKind.SPECIAL (some ".")).1 :=
      Ret.ofMatchTok _ _ hWF1.2
    refine ⟨(p1.matchTok TKind.SPECIAL (some ".")).1, ?_, hp1ret.trans h2, ?_⟩
    · simp only [parse_clause]
      rw [hp1]
      dsimp only
      rw [if_pos hDot]
    · intro hlt
      have := hp1prog hlt
      have := h2.2.1
      omega
  · by_cases hIf : p1.current_token.text = ":-"
    · have h2 : Ret p1 (p1.matchTok TKind.SPECIAL (some ":-")).1 :=
        Ret.ofMatchTok _ _ hWF1.2
      have hlen2 : ((p1.matchTok TKind.SPECIAL (some ":-")).1).tokens.length
          = p.tokens.length := by rw [h2.1, hlen1]
      obtain ⟨q2, hq2, hq2ret⟩ := ihPL _ (h2.wf hWF1)
        (by have := h2.2.1; have := hp1ret.2.1; omega)
      have h3 : Ret p q2 := (hp1ret.trans h2).trans hq2ret
      have h4 : Ret q2 (q2.matchTok TKind.SPECIAL (some ".")).1 :=
        Ret.ofMatchTok _ _ (by rw [h3.1]; exact h3.2.2)
      refine ⟨(q2.matchTok TKind.SPECIAL (some ".")).1, ?_, h3.trans h4, ?_⟩
      · simp only [parse_clause]
        rw [hp1]
        dsimp only
        rw [if_neg hDot, if_pos hIf, hq2]
      · intro hlt
        have := hp1prog hlt
        have := h2.2.1
        have := hq2ret.2.1
        have := h4.2.1
        omega
    · have h2 : Ret p1 ((p1.error
          "Clause must end with \x27.\x27 or use \x27:-\x27 followed by a predicate list and a \x27.\x27"
          p1.current_token.line).advance) :=
        (Ret.ofError _ _ hWF1.2).trans
          (Ret.advance (by rw [error_pos, error_tokens]; exact hWF1.2))
      refine ⟨_, ?_, hp1ret.trans h2, ?_⟩
      · simp only [parse_clause]
        rw [hp1]
        dsimp only
        rw [if_neg hDot, if_neg hIf]
      · intro hlt
        have := hp1prog hlt
        have := h2.2.1
        omega

theorem step_clause_list {fuel : Nat} (ih : AllGood fuel) : ClauseListS (fuel + 1) := by
  obtain ⟨ihT, ihTLW, ihTL, ihP, ihPLW, ihPL, ihQ, ihC, ihCL, ihProg⟩ := ih
  intro p hWF hfuel
  by_cases hC : p.current_token.kind ≠ TKind.EOF ∧ p.current_token.text ≠ "?-"
  · have hlt : p.pos + 2 ≤ p.tokens.length := cur_lt_last hWF (Or.inl hC.1)
    obtain ⟨p1, hp1, hp1ret, hp1prog⟩ := ihC p hWF (by omega)
    have hlen1 : p1.tokens.length = p.tokens.length := by rw [hp1ret.1]
    have hprog := hp1prog hlt
    obtain ⟨q, hq, hqret⟩ := ihCL p1 (hp1ret.wf hWF) (by rw [hlen1]; omega)
    refine ⟨q, ?_, hp1ret.trans hqret⟩
    simp only [parse_clause_list]
    rw [if_pos hC, hp1]
    exact hq
  · refine ⟨p, ?_, ⟨rfl, Nat.le_refl _, hWF.2⟩⟩
    simp only [parse_clause_list]
    rw [if_neg hC]

theorem step_program {fuel : Nat} (ih : AllGood fuel) : ProgramS (fuel + 1) := by
  obtain ⟨ihT, ihTLW, ihTL, ihP, ihPLW, ihPL, ihQ, ihC, ihCL, ihProg⟩ := ih
  intro p hWF hfuel
  by_cases hQm : p.current_token.text = "?-"
  · obtain ⟨q, hq, hqret⟩ := ihQ p hWF (by omega)
    refine ⟨q, ?_, hqret⟩
    simp only [parse_program]
    rw [if_pos hQm]
    exact hq
  · obtain ⟨p1, hp1, hp1ret⟩ := ihCL p hWF (by omega)
    have hlen1 : p1.tokens.length = p.tokens.length := by rw [hp1ret.1]
    by_cases hQ2 : p1.current_token.text = "?-"
    · obtain ⟨q, hq, hqret⟩ := ihQ p1 (hp1ret.wf hWF)
        (by have := hp1ret.2.1; rw [hlen1]; omega)
      refine ⟨q, ?_, hp1ret.trans hqret⟩
      simp only [parse_program]
      rw [if_neg hQm, hp1]
      dsimp only
      rw [if_pos hQ2]
      exact hq
    · refine ⟨p1, ?_, hp1ret⟩
      simp only [parse_program]
      rw [if_neg hQm, hp1]
      dsimp only
      rw [if_neg hQ2]

/-- Every fuel sufficiency statement holds at every fuel: the induction
on fuel tying the ten step lemmas together. -/
theorem allGood : ∀ fuel, AllGood fuel := by
  intro fuel
  induction fuel with
  | zero =>
    refine ⟨?_, ?_, ?_, ?_, ?_, ?_, ?_, ?_, ?_, ?_⟩ <;>
      exact fun p _ hf => absurd hf (by omega)
  | succ fuel ih =>
    exact ⟨step_term ih, step_term_list_while ih, step_term_list ih, step_pred ih,
      step_pred_list_while ih, step_pred_list ih, step_query ih, step_clause ih,
      step_clause_list ih, step_program ih⟩

-- ==================== Exit conditions and stream consumption ====================

/-- `parse_clause_list` only returns at EOF or at the query marker. -/
theorem parse_clause_list_exit : ∀ fuel (p q : Parser),
    parse_clause_list fuel p = some q →
    q.current_token.kind = TKind.EOF ∨ q.current_token.text = "?-" := by
  intro fuel
  induction fuel with
  | zero => intro p q h; exact Option.noConfusion h
  | succ fuel ih =>
    intro p q h
    simp only [parse_clause_list] at h
    by_cases hC : p.current_token.kind ≠ TKind.EOF ∧ p.current_token.text ≠ "?-"
    · rw [if_pos hC] at h
      cases hcl : parse_clause fuel p with
      | none => rw [hcl] at h; exact Option.noConfusion h
      | some p1 => rw [hcl] at h; exact ih p1 q h
    · rw [if_neg hC] at h
      injection h with h
      subst h
      by_cases hk : p.current_token.kind = TKind.EOF
      · exact Or.inl hk
      · right
        by_contra ht
        exact hC ⟨hk, ht⟩

/-- The current token is a member of the token list while the cursor is
in bounds. -/
theorem current_mem {p : Parser} (h : p.pos + 1 ≤ p.tokens.length) :
    p.current_token ∈ p.tokens := by
  have hlt : p.pos < p.tokens.length := by omega
  simp only [Parser.current_token, List.getD_eq_getElem?_getD]
  rw [List.getElem?_eq_getElem hlt]
  simp only [Option.getD_some]
  exact List.getElem_mem hlt

/-- With no interior EOF-kind token, a current token of kind EOF can only
be the final sentinel. -/
theorem cur_interior_ne_eof {p : Parser}
    (hAll : p.tokens.dropLast.all (fun t => !(t.kind == TKind.EOF)) = true)
    (h2 : p.pos + 2 ≤ p.tokens.length) :
    p.current_token.kind ≠ TKind.EOF := by
  have hlt : p.pos < p.tokens.dropLast.length := by
    rw [List.length_dropLast]; omega
  have hlt2 : p.pos < p.tokens.length := by omega
  have hmem : p.tokens.dropLast.get ⟨p.pos, hlt⟩ ∈ p.tokens.dropLast :=
    List.get_mem _ _ hlt
  have hprop := List.all_eq_true.mp hAll _ hmem
  have hget : p.tokens.dropLast.get ⟨p.pos, hlt⟩ = p.tokens.get ⟨p.pos, hlt2⟩ := by
    simp [List.get_eq_getElem]
  have hcur : p.current_token = p.tokens.get ⟨p.pos, hlt2⟩ := by
    simp only [Parser.current_token, List.getD_eq_getElem?_getD]
    rw [List.getElem?_eq_getElem hlt2]
    simp only [Option.getD_some, List.get_eq_getElem]
  rw [hcur, ← hget]
  simpa using hprop

theorem mkParser_wf {tokens : List Token} (h : endsWithEOF tokens = true) :
    WFState (mkParser tokens) :=
  ⟨h, by have := endsWithEOF_ne_nil h; simpa [mkParser] using this⟩

theorem no_query_current {q : Parser} {tokens : List Token}
    (htok : q.tokens = tokens)
    (hNoQ : tokens.all (fun t => !(t.text == "?-")) = true)
    (hb : q.pos + 1 ≤ q.tokens.length) :
    q.current_token.text ≠ "?-" := by
  have hmem : q.current_token ∈ q.tokens := current_mem hb
  rw [htok] at hmem
  have := List.all_eq_true.mp hNoQ _ hmem
  simpa using this

/-- C3: on every finite token sequence ending in the EOF sentinel,
`parse_program` terminates within a fuel budget linear in the number of
tokens: no input, however malformed, causes an infinite loop (each
clause-list iteration strictly advances the cursor, via the predicate
consuming a token or the error branch's forced advance). -/
theorem parser_error_pass_terminates (tokens : List Token)
    (hE : endsWithEOF tokens = true) :
    ∃ q, parse_program (enoughFuel tokens) (mkParser tokens) = some q ∧
      q.tokens = tokens ∧ q.pos + 1 ≤ tokens.length := by
  obtain ⟨q, hq, hret⟩ :=
    (allGood (enoughFuel tokens)).2.2.2.2.2.2.2.2.2 (mkParser tokens) (mkParser_wf hE)
      (by simp only [mkParser, enoughFuel]; omega)
  exact ⟨q, hq, hret.1, hret.2.2⟩

/-- Witness: the termination theorem applied to the one-token stream
holding only the EOF sentinel. -/
theorem parser_error_pass_terminates_witness :
    (parse_program (enoughFuel [⟨TKind.EOF, "", 1⟩]) (mkParser [⟨TKind.EOF, "", 1⟩])).isSome
      = true := by
  obtain ⟨q, hq, -, -⟩ := parser_error_pass_terminates [⟨TKind.EOF, "", 1⟩] (by decide)
  rw [hq]
  rfl

/-- C1 counterexample: on the token stream of `"?- a. b."` the parser
takes the query path, returns with the cursor on the ATOM token `b`
(index 3 of 6), not on the EOF sentinel (index 5), and reports no error:
the tokens after the query remain unexamined. -/
theorem query_prefix_leaves_tokens_unexamined :
    (parse_program (enoughFuel (tokenize ("?- a. b.".data)))
        (mkParser (tokenize ("?- a. b.".data)))).map
        (fun q => (q.pos, q.current_token.kind, q.errors)) =
      some (3, TKind.ATOM, []) ∧
    (tokenize ("?- a. b.".data)).length = 6 ∧
    TKind.ATOM ≠ TKind.EOF := by
  have ht : tokenize ("?- a. b.".data) =
      [⟨TKind.SPECIAL, "?-", 1⟩, ⟨TKind.ATOM, "a", 1⟩, ⟨TKind.SPECIAL, ".", 1⟩,
        ⟨TKind.ATOM, "b", 1⟩, ⟨TKind.SPECIAL, ".", 1⟩, ⟨TKind.EOF, "", 1⟩] := by
    simp +decide [tokenize, lexRun]
  rw [ht]
  refine ⟨?_, ?_, ?_⟩ <;> decide

/-- C1 (amended): after `parse_program` returns on a sentinel-terminated
stream with no interior EOF token and no `?-` token, the cursor is at the
EOF sentinel (the stream is fully consumed); when a query is present,
parsing stops after the query's terminating `.` and later tokens may
remain unexamined. -/
theorem clause_stream_consumed_no_query (tokens : List Token)
    (hE : endsWithEOF tokens = true)
    (hInt : tokens.dropLast.all (fun t => !(t.kind == TKind.EOF)) = true)
    (hNoQ : tokens.all (fun t => !(t.text == "?-")) = true) :
    ∃ q, parse_program (enoughFuel tokens) (mkParser tokens) = some q ∧
      q.pos + 1 = tokens.length ∧ q.current_token.kind = TKind.EOF := by
  have hWF0 : WFState (mkParser tokens) := mkParser_wf hE
  have hfuel : enoughFuel tokens = 8 * tokens.length + 7 + 1 := by
    simp only [enoughFuel]
  have hcur0 : (mkParser tokens).current_token.text ≠ "?-" :=
    no_query_current rfl hNoQ hWF0.2
  obtain ⟨q1, hq1, hq1ret⟩ :=
    (allGood (8 * tokens.length + 7)).2.2.2.2.2.2.2.2.1 (mkParser tokens) hWF0
      (by simp only [mkParser]; omega)
  have hq1tok : q1.tokens = tokens := hq1ret.1
  have hq1b : q1.pos + 1 ≤ q1.tokens.length := by
    rw [hq1tok]; exact hq1ret.2.2
  have hcur1 : q1.current_token.text ≠ "?-" := no_query_current hq1tok hNoQ hq1b
  have heof : q1.current_token.kind = TKind.EOF := by
    rcases parse_clause_list_exit _ _ _ hq1 with h | h
    · exact h
    · exact absurd h hcur1
  have hlast : q1.pos + 1 = tokens.length := by
    by_contra hne
    have hlen : q1.tokens.length = tokens.length := by rw [hq1tok]
    have h2 : q1.pos + 2 ≤ q1.tokens.length := by omega
    exact cur_interior_ne_eof (by rw [hq1tok]; exact hInt) h2 heof
  refine ⟨q1, ?_, hlast, heof⟩
  rw [hfuel]
  simp only [parse_program]
  rw [if_neg hcur0, hq1]
  dsimp only
  rw [if_neg hcur1]

/-- Witness for the amended C1 at the stream of `"a."`. -/
theorem clause_stream_consumed_no_query_witness :
    (parse_program (enoughFuel (tokenize ("a.".data)))
        (mkParser (tokenize ("a.".data)))).map Parser.pos = some 2 := by
  have ht : tokenize ("a.".data) =
      [⟨TKind.ATOM, "a", 1⟩, ⟨TKind.SPECIAL, ".", 1⟩, ⟨TKind.EOF, "", 1⟩] := by
    simp +decide [tokenize, lexRun]
  obtain ⟨q, hq, hpos, -⟩ :=
    clause_stream_consumed_no_query (tokenize ("a.".data))
      (by rw [ht]; decide) (by rw [ht]; decide) (by rw [ht]; decide)
  rw [hq]
  rw [ht] at hpos
  have hq2 : q.pos = 2 := by
    simp only [List.length_cons, List.length_nil] at hpos
    omega
  simp [hq2]

-- ==================== Lexer: EOF sentinel and line count ====================

/-- Dropping a prefix of characters that can never be `ch` leaves the
count of `ch` unchanged. -/
theorem count_dropWhile_eq {p : Char → Bool} {ch : Char}
    (hp : ∀ x, p x = true → x ≠ ch) (l : List Char) :
    (l.dropWhile p).count ch = l.count ch := by
  conv_rhs => rw [← List.takeWhile_append_dropWhile (p := p) (l := l)]
  rw [List.count_append]
  have h0 : (l.takeWhile p).count ch = 0 := by
    rw [List.count_eq_zero]
    intro hmem
    exact hp ch (List.mem_takeWhile_imp hmem) rfl
  omega

theorem count_cons_of_ne {c ch : Char} (h : ¬ c = ch) (l : List Char) :
    (c :: l).count ch = l.count ch := by
  rw [List.count_cons]
  simp [h]

/-- One emitting step of the scan preserves the sentinel property. -/
theorem lexRun_cons_step {n : Nat}
    (ihn : ∀ (cs : List Char) (line : Nat), cs.length ≤ n →
      ∃ pre, lexRun cs line = pre ++ [⟨TKind.EOF, "", line + cs.count '\n'⟩] ∧
        ∀ t ∈ pre, t.kind ≠ TKind.EOF)
    (tok : Token) (s : List Char) (line m : Nat)
    (hk : tok.kind ≠ TKind.EOF) (hlen : s.length ≤ n)
    (hcnt : s.count '\n' = m) :
    ∃ pre, tok :: lexRun s line = pre ++ [⟨TKind.EOF, "", line + m⟩] ∧
      ∀ t ∈ pre, t.kind ≠ TKind.EOF := by
  obtain ⟨pre, hpre, hno⟩ := ihn s line hlen
  subst hcnt
  refine ⟨tok :: pre, by rw [hpre, List.cons_append], ?_⟩
  intro t ht
  rcases List.mem_cons.mp ht with h | h
  · subst h; exact hk
  · exact hno t h

/-- One skipping step of the scan preserves the sentinel property. -/
theorem lexRun_skip_step {n : Nat}
    (ihn : ∀ (cs : List Char) (line : Nat), cs.length ≤ n →
      ∃ pre, lexRun cs line = pre ++ [⟨TKind.EOF, "", line + cs.count '\n'⟩] ∧
        ∀ t ∈ pre, t.kind ≠ TKind.EOF)
    (s : List Char) (line lnew m : Nat)
    (hlen : s.length ≤ n) (hcnt : lnew + s.count '\n' = line + m) :
    ∃ pre, lexRun s lnew = pre ++ [⟨TKind.EOF, "", line + m⟩] ∧
      ∀ t ∈ pre, t.kind ≠ TKind.EOF := by
  obtain ⟨pre, hpre, hno⟩ := ihn s lnew hlen
  rw [hpre, hcnt]
  exact ⟨pre, rfl, hno⟩

/-- The scanning loop always produces a stream ending in one EOF sentinel
whose line is the starting line plus the number of newline characters in
the remaining input, with no EOF token before it. -/
theorem lexRun_eof_aux : ∀ (n : Nat) (cs : List Char) (line : Nat), cs.length ≤ n →
    ∃ pre, lexRun cs line = pre ++ [⟨TKind.EOF, "", line + cs.count '\n'⟩] ∧
      ∀ t ∈ pre, t.kind ≠ TKind.EOF := by
  intro n
  induction n with
  | zero =>
    intro cs line hlen
    have h0 : cs = [] := List.length_eq_zero.mp (by omega)
    subst h0
    exact ⟨[], by rw [lexRun.eq_def]; simp, by simp⟩
  | succ n ihn =>
    intro cs line hlen
    cases cs with
    | nil => exact ⟨[], by rw [lexRun.eq_def]; simp, by simp⟩
    | cons c rest =>
      have hlen' : rest.length ≤ n := by
        simp only [List.length_cons] at hlen
        omega
      have hdroplen : ∀ p : Char → Bool, (rest.dropWhile p).length ≤ n :=
        fun p => le_trans (length_dropWhile_le_self p rest) hlen'
      rw [lexRun.eq_def]
      dsimp only
      split
      next hd =>
        refine lexRun_cons_step ihn _ _ _ _ (by simp) (hdroplen _) ?_
        have hc : ¬ c = '\n' := by
          intro h; subst h; exact absurd hd (by decide)
        rw [count_dropWhile_eq (fun x hx => by
          intro hxx; subst hxx; exact absurd hx (by decide)) rest]
        rw [count_cons_of_ne hc]
      next hd =>
      split
      next hl =>
        refine lexRun_cons_step ihn _ _ _ _ (by simp) (hdroplen _) ?_
        have hc : ¬ c = '\n' := by
          intro h; subst h; exact absurd hl (by decide)
        rw [count_dropWhile_eq (fun x hx => by
          intro hxx; subst hxx; exact absurd hx (by decide)) rest]
        rw [count_cons_of_ne hc]
      next hl =>
      split
      next hv =>
        refine lexRun_cons_step ihn _ _ _ _ (by simp) (hdroplen _) ?_
        have hc : ¬ c = '\n' := by
          intro h; subst h; exact absurd hv (by decide)
        rw [count_dropWhile_eq (fun x hx => by
          intro hxx; subst hxx; exact absurd hx (by decide)) rest]
        rw [count_cons_of_ne hc]
      next hv =>
      split
      next hq =>
        subst hq
        split
        next rest2 =>
          refine lexRun_cons_step ihn _ _ _ _ (by simp) (by
            simp only [List.length_cons] at hlen
            omega) ?_
          rw [count_cons_of_ne (by decide), count_cons_of_ne (by decide)]
        next r hne =>
          exact lexRun_cons_step ihn _ _ _ _ (by simp) hlen'
            (count_cons_of_ne (by decide) rest).symm
      next hq =>
      split
      next hcol =>
        subst hcol
        split
        next rest2 =>
          refine lexRun_cons_step ihn _ _ _ _ (by simp) (by
            simp only [List.length_cons] at hlen
            omega) ?_
          rw [count_cons_of_ne (by decide), count_cons_of_ne (by decide)]
        next r hne =>
          exact lexRun_cons_step ihn _ _ _ _ (by simp) hlen'
            (count_cons_of_ne (by decide) rest).symm
      next hcol =>
      split
      next hs =>
        refine lexRun_cons_step ihn _ _ _ _ (by simp) hlen' ?_
        have hc : ¬ c = '\n' := by
          intro h; subst h; exact absurd hs (by decide)
        rw [count_cons_of_ne hc]
      next hs =>
      split
      next hsp =>
        have hc : ¬ c = '\n' := by
          intro h; subst h; exact absurd hsp (by decide)
        exact lexRun_skip_step ihn _ _ _ _ hlen'
          (by rw [count_cons_of_ne hc])
      next hsp =>
      split
      next hnl =>
        subst hnl
        refine lexRun_skip_step ihn _ _ _ _ hlen' ?_
        rw [List.count_cons]
        simp
        omega
      next hnl =>
        exact lexRun_cons_step ihn _ _ _ _ (by simp) hlen'
          (count_cons_of_ne hnl rest).symm

/-- C4: tokenizing any string terminates (the scan is a total function)
and the produced token sequence ends with exactly one EOF token whose
recorded line number equals 1 plus the number of newline characters in
the whole input. -/
theorem tokenize_ends_with_single_eof (text : List Char) :
    ∃ pre, tokenize text = pre ++ [⟨TKind.EOF, "", 1 + text.count '\n'⟩] ∧
      (∀ t ∈ pre, t.kind ≠ TKind.EOF) ∧
      ((tokenize text).filter (fun t => t.kind == TKind.EOF)).length = 1 := by
  obtain ⟨pre, h1, h2⟩ := lexRun_eof_aux text.length text 1 (Nat.le_refl _)
  refine ⟨pre, h1, h2, ?_⟩
  simp only [tokenize]
  rw [h1, List.filter_append]
  have hf : pre.filter (fun t => t.kind == TKind.EOF) = [] := by
    rw [List.filter_eq_nil_iff]
    intro t ht
    simpa using h2 t ht
  rw [hf]
  simp

/-- C7: tokenization is total and never raises: a character beginning no
NUMBER, ATOM, VARIABLE or SPECIAL match that is not whitespace or a
newline is emitted as a single-character ERROR token carrying that
character and the current line, and scanning continues with the rest. -/
theorem unrecognized_char_error_token (c : Char) (rest : List Char) (line : Nat)
    (hd : isDigitC c = false) (hl : isLowerC c = false) (hv : isVarStartC c = false)
    (hq : (c = '?' ∨ c = ':') → rest.head? ≠ some '-')
    (hs : isSingleSpecialC c = false)
    (hw : ¬ (c = ' ' ∨ c = '\t')) (hn : c ≠ '\n') :
    lexRun (c :: rest) line = ⟨TKind.ERROR, String.mk [c], line⟩ :: lexRun rest line := by
  rw [lexRun.eq_def]
  dsimp only
  rw [if_neg (by simp [hd]), if_neg (by simp [hl]), if_neg (by simp [hv])]
  by_cases hq2 : c = '?'
  · subst hq2
    have hhd := hq (Or.inl rfl)
    rw [if_pos rfl]
    split
    next rest2 => simp at hhd
    next r hne => rfl
  · rw [if_neg hq2]
    by_cases hc2 : c = ':'
    · subst hc2
      have hhd := hq (Or.inr rfl)
      rw [if_pos rfl]
      split
      next rest2 => simp at hhd
      next r hne => rfl
    · rw [if_neg hc2, if_neg (by simp [hs]),
        if_neg (by simp only [Bool.or_eq_true, decide_eq_true_eq]; exact hw),
        if_neg hn]

/-- Witness for C7 at the character `@`. -/
theorem unrecognized_char_error_token_witness :
    lexRun ['@'] 1 = [⟨TKind.ERROR, String.mk ['@'], 1⟩, ⟨TKind.EOF, "", 1⟩] := by
  rw [unrecognized_char_error_token '@' [] 1 (by decide) (by decide) (by decide)
    (by decide) (by decide) (by decide) (by decide)]
  rw [lexRun.eq_def]

-- ==================== Match and advance contracts ====================

/-- C6 (amended): `match` succeeds exactly when the current token has the
expected kind and (when given) the expected text; on success it returns
`true`, leaves the error list unchanged, and advances the cursor by
exactly one except when already at the final token, where `advance` is a
no-op; on failure it returns `false`, leaves the cursor unchanged, and
appends exactly one error rendered
`"Syntax Error at line {line}: ..."` with the current token's line. -/
theorem match_contract (p : Parser) (k : TKind) (v : Option String) :
    ((p.matchTok k v).2 = true ↔
      (p.current_token.kind = k ∧ (v = none ∨ v = some p.current_token.text))) ∧
    ((p.matchTok k v).2 = true →
      (p.matchTok k v).1 = p.advance ∧
      (p.matchTok k v).1.errors = p.errors ∧
      (p.pos + 2 ≤ p.tokens.length → (p.matchTok k v).1.pos = p.pos + 1) ∧
      (p.tokens.length ≤ p.pos + 1 → (p.matchTok k v).1.pos = p.pos)) ∧
    ((p.matchTok k v).2 = false →
      (p.matchTok k v).1.pos = p.pos ∧ (p.matchTok k v).1.tokens = p.tokens ∧
      (p.matchTok k v).1.errors = p.errors ++
        [⟨matchFailMsg k v p.current_token, p.current_token.line⟩] ∧
      (p.matchTok k v).1.errorMsgs = p.errorMsgs ++
        ["Syntax Error at line " ++ toString p.current_token.line ++ ": " ++
          matchFailMsg k v p.current_token]) := by
  by_cases hcond : p.current_token.kind = k ∧ (v = none ∨ v = some p.current_token.text)
  · have heq : p.matchTok k v = (p.advance, true) := by
      simp only [Parser.matchTok]
      rw [if_pos hcond]
    rw [heq]
    refine ⟨by simp [hcond], ?_, by simp⟩
    intro _
    refine ⟨rfl, advance_errors p, ?_, ?_⟩
    · intro h
      exact advance_pos_of_lt h
    · intro h
      rw [advance_noop (by omega)]
  · have heq : p.matchTok k v =
        (p.error (matchFailMsg k v p.current_token) p.current_token.line, false) := by
      simp only [Parser.matchTok]
      rw [if_neg hcond]
    rw [heq]
    refine ⟨by simpa using hcond, by simp, ?_⟩
    intro _
    refine ⟨error_pos p _ _, error_tokens p _ _, error_errors p _ _, ?_⟩
    simp [Parser.errorMsgs, Parser.error, renderError]

/-- C6 counterexample: in the state holding only the EOF sentinel,
matching the EOF kind succeeds (returns `true`) yet leaves the cursor
where it was, because `advance` at the final token is a no-op — so "on
success it advances the cursor by exactly one" fails at this state. -/
theorem match_at_sentinel_no_advance :
    ((mkParser [⟨TKind.EOF, "", 1⟩]).matchTok TKind.EOF none).2 = true ∧
    ((mkParser [⟨TKind.EOF, "", 1⟩]).matchTok TKind.EOF none).1.pos
      = (mkParser [⟨TKind.EOF, "", 1⟩]).pos := by
  decide

/-- Witness for C6 applying the contract at a concrete matching state. -/
theorem match_contract_witness :
    ((mkParser [⟨TKind.ATOM, "a", 1⟩, ⟨TKind.EOF, "", 1⟩]).matchTok TKind.ATOM none).2
      = true :=
  (match_contract (mkParser [⟨TKind.ATOM, "a", 1⟩, ⟨TKind.EOF, "", 1⟩])
    TKind.ATOM none).1.mpr (by decide)

/-- C8: the cursor is monotonically non-decreasing under `advance` and is
never moved past the final token: below the last token `advance` adds
exactly one, at the sentinel index it is a no-op, and the cursor stays in
bounds, so reading the current token is always in bounds. -/
theorem advance_cursor_contract (p : Parser) :
    p.advance.tokens = p.tokens ∧
    p.pos ≤ p.advance.pos ∧
    (p.pos + 2 ≤ p.tokens.length → p.advance.pos = p.pos + 1) ∧
    (p.pos + 1 ≤ p.tokens.length → p.advance.pos + 1 ≤ p.tokens.length) ∧
    (p.pos + 1 = p.tokens.length → p.advance = p) ∧
    (p.pos + 1 ≤ p.tokens.length → p.advance.pos < p.tokens.length) := by
  refine ⟨advance_tokens p, advance_pos_le p, fun h => advance_pos_of_lt h,
    fun h => advance_pos_bound h, fun h => advance_noop (by omega), fun h => ?_⟩
  have := advance_pos_bound h
  omega

/-- Witness for C8: `advance` at the sentinel of a one-token stream is a
no-op. -/
theorem advance_cursor_contract_witness :
    (mkParser [⟨TKind.EOF, "", 1⟩]).advance = mkParser [⟨TKind.EOF, "", 1⟩] :=
  (advance_cursor_contract (mkParser [⟨TKind.EOF, "", 1⟩])).2.2.2.2.1 (by decide)

-- ==================== Determinism and concrete scenarios ====================

/-- C9: the lexer-plus-parser pipeline is a pure function of the text
alone: two runs on identical text, each constructing a fresh lexer and a
fresh parser (cursor 0, empty error list), yield identical error
lists. -/
theorem pipeline_deterministic (content : List Char) :
    runTwice content = (process_text content, process_text content) ∧
    (runTwice content).1 = (runTwice content).2 :=
  ⟨rfl, rfl⟩

/-- C2 counterexample: on `"parent(tom bob)."` the parser records three
errors (the expected-`)` mismatch after `tom`, then two cascade errors
from the forced-advance recovery), not exactly one. -/
theorem missing_comma_not_single_error :
    (process_text ("parent(tom bob).".data)).map List.length = some 3 ∧
    (process_text ("parent(tom bob).".data)).map List.length ≠ some 1 := by
  have ht : tokenize ("parent(tom bob).".data) =
      [⟨TKind.ATOM, "parent", 1⟩, ⟨TKind.SPECIAL, "(", 1⟩, ⟨TKind.ATOM, "tom", 1⟩,
        ⟨TKind.ATOM, "bob", 1⟩, ⟨TKind.SPECIAL, ")", 1⟩, ⟨TKind.SPECIAL, ".", 1⟩,
        ⟨TKind.EOF, "", 1⟩] := by
    simp +decide [tokenize, lexRun]
  simp only [process_text, ht]
  exact ⟨by decide, by decide⟩

/-- C2 (amended): on `"parent(tom bob)."` the error list holds exactly
three errors — the expected-`)` report after `tom` followed by two
cascade errors — every one reported at line 1. -/
theorem missing_comma_three_errors_line1 :
    (process_text ("parent(tom bob).".data)).map
        (fun l => (l.length, l.map ParseError.line)) = some (3, [1, 1, 1]) := by
  have ht : tokenize ("parent(tom bob).".data) =
      [⟨TKind.ATOM, "parent", 1⟩, ⟨TKind.SPECIAL, "(", 1⟩, ⟨TKind.ATOM, "tom", 1⟩,
        ⟨TKind.ATOM, "bob", 1⟩, ⟨TKind.SPECIAL, ")", 1⟩, ⟨TKind.SPECIAL, ".", 1⟩,
        ⟨TKind.EOF, "", 1⟩] := by
    simp +decide [tokenize, lexRun]
  simp only [process_text, ht]
  decide

/-- C5: the five valid inputs — a fact, a rule, a query, the empty file,
and a nested structure with mixed variable/numeral arguments — all parse
with an empty error list. -/
theorem valid_inputs_no_errors :
    process_text ("parent(tom, bob).".data) = some [] ∧
    process_text ("ancestor(X,Y) :- parent(X,Y).".data) = some [] ∧
    process_text ("?- parent(tom, bob).".data) = some [] ∧
    process_text ("".data) = some [] ∧
    process_text ("f(X, g(Y, 1)).".data) = some [] := by
  have h1 : tokenize ("parent(tom, bob).".data) =
      [⟨TKind.ATOM, "parent", 1⟩, ⟨TKind.SPECIAL, "(", 1⟩, ⟨TKind.ATOM, "tom", 1⟩,
        ⟨TKind.SPECIAL, ",", 1⟩, ⟨TKind.ATOM, "bob", 1⟩, ⟨TKind.SPECIAL, ")", 1⟩,
        ⟨TKind.SPECIAL, ".", 1⟩, ⟨TKind.EOF, "", 1⟩] := by
    simp +decide [tokenize, lexRun]
  have h2 : tokenize ("ancestor(X,Y) :- parent(X,Y).".data) =
      [⟨TKind.ATOM, "ancestor", 1⟩, ⟨TKind.SPECIAL, "(", 1⟩, ⟨TKind.VARIABLE, "X", 1⟩,
        ⟨TKind.SPECIAL, ",", 1⟩, ⟨TKind.VARIABLE, "Y", 1⟩, ⟨TKind.SPECIAL, ")", 1⟩,
        ⟨TKind.SPECIAL, ":-", 1⟩, ⟨TKind.ATOM, "parent", 1⟩, ⟨TKind.SPECIAL, "(", 1⟩,
        ⟨TKind.VARIABLE, "X", 1⟩, ⟨TKind.SPECIAL, ",", 1⟩, ⟨TKind.VARIABLE, "Y", 1⟩,
        ⟨TKind.SPECIAL, ")", 1⟩, ⟨TKind.SPECIAL, ".", 1⟩, ⟨TKind.EOF, "", 1⟩] := by
    simp +decide [tokenize, lexRun]
  have h3 : tokenize ("?- parent(tom, bob).".data) =
      [⟨TKind.SPECIAL, "?-", 1⟩, ⟨TKind.ATOM, "parent", 1⟩, ⟨TKind.SPECIAL, "(", 1⟩,
        ⟨TKind.ATOM, "tom", 1⟩, ⟨TKind.SPECIAL, ",", 1⟩, ⟨TKind.ATOM, "bob", 1⟩,
        ⟨TKind.SPECIAL, ")", 1⟩, ⟨TKind.SPECIAL, ".", 1⟩, ⟨TKind.EOF, "", 1⟩] := by
    simp +decide [tokenize, lexRun]
  have h4 : tokenize ("".data) = [⟨TKind.EOF, "", 1⟩] := by
    simp +decide [tokenize, lexRun]
  have h5 : tokenize ("f(X, g(Y, 1)).".data) =
      [⟨TKind.ATOM, "f", 1⟩, ⟨TKind.SPECIAL, "(", 1⟩, ⟨TKind.VARIABLE, "X", 1⟩,
        ⟨TKind.SPECIAL, ",", 1⟩, ⟨TKind.ATOM, "g", 1⟩, ⟨TKind.SPECIAL, "(", 1⟩,
        ⟨TKind.VARIABLE, "Y", 1⟩, ⟨TKind.SPECIAL, ",", 1⟩, ⟨TKind.NUMBER, "1", 1⟩,
        ⟨TKind.SPECIAL, ")", 1⟩, ⟨TKind.SPECIAL, ")", 1⟩, ⟨TKind.SPECIAL, ".", 1⟩,
        ⟨TKind.EOF, "", 1⟩] := by
    simp +decide [tokenize, lexRun]
  refine ⟨?_, ?_, ?_, ?_, ?_⟩
  · simp only [process_text, h1]; decide
  · simp only [process_text, h2]; decide
  · simp only [process_text, h3]; decide
  · simp only [process_text, h4]; decide
  · simp only [process_text, h5]; decide

-- ==================== Unreachability of the query-start error ====================

theorem string_append_data (a b : String) : (a ++ b).data = a.data ++ b.data := by
  cases a
  cases b
  rfl

/-- No mismatch message of `Parser.match` equals the query-start message
(they differ in their first character). -/
theorem matchFailMsg_ne_query (k : TKind) (v : Option String) (t : Token) :
    matchFailMsg k v t ≠ queryStartMsg := by
  intro h
  have h2 := congrArg (fun s => s.data.head?) h
  simp only [matchFailMsg] at h2
  simp only [string_append_data, List.cons_append, List.head?_cons] at h2
  rw [show queryStartMsg.data.head? = some 'Q' from rfl] at h2
  exact absurd h2 (by decide)

/-- `q` adds no query-start error over `p`: every recorded error either
was already in `p` or has a different message. -/
def NoQMsg (p q : Parser) : Prop :=
  ∀ e ∈ q.errors, e ∈ p.errors ∨ e.message ≠ queryStartMsg

theorem noQ_refl {p : Parser} : NoQMsg p p := fun _ he => Or.inl he

theorem NoQMsg.chain {p q r : Parser} (h1 : NoQMsg p q) (h2 : NoQMsg q r) :
    NoQMsg p r := by
  intro e he
  rcases h2 e he with h | h
  · exact h1 e h
  · exact Or.inr h

theorem noQ_error {p : Parser} {m : String} {l : Nat}
    (hm : m ≠ queryStartMsg) : NoQMsg p (p.error m l) := by
  intro e he
  rw [error_errors] at he
  rcases List.mem_append.mp he with h | h
  · exact Or.inl h
  · right
    rw [List.mem_singleton.mp h]
    exact hm

theorem noQ_advance {p : Parser} : NoQMsg p p.advance := by
  intro e he
  rw [advance_errors] at he
  exact Or.inl he

theorem noQ_matchTok {p : Parser} (k : TKind) (v : Option String) :
    NoQMsg p (p.matchTok k v).1 := by
  intro e he
  rcases matchTok_fst_errors p k v with h | h
  · rw [h] at he
    exact Or.inl he
  · rw [h] at he
    rcases List.mem_append.mp he with h2 | h2
    · exact Or.inl h2
    · right
      rw [List.mem_singleton.mp h2]
      exact matchFailMsg_ne_query k v p.current_token
  
theorem noQ_parse_atom {p : Parser} : NoQMsg p (parse_atom p) := by
  intro e he
  rcases parse_atom_errors p with h | h
  · rw [h] at he
    exact Or.inl he
  · rw [h] at he
    rcases List.mem_append.mp he with h2 | h2
    · exact Or.inl h2
    · right
      rw [List.mem_singleton.mp h2]
      exact (by decide : ("Expected an atom" : String) ≠ queryStartMsg)

/-- The no-query-start-error statements for every parsing procedure,
bundled for the induction on fuel (for `parse_query` under the guard its
callers establish). -/
def NAllGood (fuel : Nat) : Prop :=
  (∀ p q, parse_term fuel p = some q → NoQMsg p q) ∧
  (∀ p q, parse_term_list_while fuel p = some q → NoQMsg p q) ∧
  (∀ p q, parse_term_list fuel p = some q → NoQMsg p q) ∧
  (∀ p q, parse_predicate fuel p = some q → NoQMsg p q) ∧
  (∀ p q, parse_predicate_list_while fuel p = some q → NoQMsg p q) ∧
  (∀ p q, parse_predicate_list fuel p = some q → NoQMsg p q) ∧
  (∀ p q, p.current_token.text = "?-" → parse_query fuel p = some q → NoQMsg p q) ∧
  (∀ p q, parse_clause fuel p = some q → NoQMsg p q) ∧
  (∀ p q, parse_clause_list fuel p = some q → NoQMsg p q) ∧
  (∀ p q, parse_program fuel p = some q → NoQMsg p q)

/-- By induction on fuel: no parsing procedure reached from
`parse_program` ever records the query-start error (for `parse_query`,
under the guard every caller establishes). -/
theorem nAllGood : ∀ fuel, NAllGood fuel := by
  intro fuel
  induction fuel with
  | zero =>
    refine ⟨fun p q h => absurd h (by simp [parse_term]),
      fun p q h => absurd h (by simp [parse_term_list_while]),
      fun p q h => absurd h (by simp [parse_term_list]),
      fun p q h => absurd h (by simp [parse_predicate]),
      fun p q h => absurd h (by simp [parse_predicate_list_while]),
      fun p q h => absurd h (by simp [parse_predicate_list]),
      fun p q _ h => absurd h (by simp [parse_query]),
      fun p q h => absurd h (by simp [parse_clause]),
      fun p q h => absurd h (by simp [parse_clause_list]),
      fun p q h => absurd h (by simp [parse_program])⟩
  | succ fuel ih =>
    obtain ⟨ihT, ihTLW, ihTL, ihP, ihPLW, ihPL, ihQ, ihC, ihCL, ihProg⟩ := ih
    refine ⟨?_, ?_, ?_, ?_, ?_, ?_, ?_, ?_, ?_, ?_⟩
    · intro p q h
      simp only [parse_term] at h
      by_cases hA : p.current_token.kind = TKind.ATOM
      · rw [if_pos hA] at h
        by_cases hParen : (parse_atom p).current_token.text = "("
        · rw [if_pos hParen] at h
          cases htl : parse_term_list fuel
              ((parse_atom p).matchTok TKind.SPECIAL (some "(")).1 with
          | none => rw [htl] at h; exact absurd h (by simp)
          | some q1 =>
            rw [htl] at h
            injection h with h
            subst h
            exact ((noQ_parse_atom.chain (noQ_matchTok _ _)).chain
              (ihTL _ _ htl)).chain (noQ_matchTok _ _)
        · rw [if_neg hParen] at h
          injection h with h
          subst h
          exact noQ_parse_atom
      · rw [if_neg hA] at h
        by_cases hV : p.current_token.kind = TKind.VARIABLE
        · rw [if_pos hV] at h
          injection h with h
          subst h
          exact noQ_matchTok _ _
        · rw [if_neg hV] at h
          by_cases hN : p.current_token.kind = TKind.NUMBER
          · rw [if_pos hN] at h
            injection h with h
            subst h
            exact noQ_matchTok _ _
          · rw [if_neg hN] at h
            injection h with h
            subst h
            exact (noQ_error (by decide)).chain noQ_advance
    · intro p q h
      simp only [parse_term_list_while] at h
      by_cases hC : p.current_token.text = ","
      · rw [if_pos hC] at h
        cases ht : parse_term fuel (p.matchTok TKind.SPECIAL (some ",")).1 with
        | none => rw [ht] at h; exact absurd h (by simp)
        | some q1 =>
          rw [ht] at h
          exact ((noQ_matchTok _ _).chain (ihT _ _ ht)).chain (ihTLW _ _ h)
      · rw [if_neg hC] at h
        injection h with h
        subst h
        exact noQ_refl
    · intro p q h
      simp only [parse_term_list] at h
      cases ht : parse_term fuel p with
      | none => rw [ht] at h; exact absurd h (by simp)
      | some q1 =>
        rw [ht] at h
        exact (ihT _ _ ht).chain (ihTLW _ _ h)
    · intro p q h
      simp only [parse_predicate] at h
      by_cases hA : p.current_token.kind = TKind.ATOM
      · rw [if_pos hA] at h
        by_cases hParen : (parse_atom p).current_token.text = "("
        · rw [if_pos hParen] at h
          cases htl : parse_term_list fuel
              ((parse_atom p).matchTok TKind.SPECIAL (some "(")).1 with
          | none => rw [htl] at h; exact absurd h (by simp)
          | some q1 =>
            rw [htl] at h
            injection h with h
            subst h
            exact ((noQ_parse_atom.chain (noQ_matchTok _ _)).chain
              (ihTL _ _ htl)).chain (noQ_matchTok _ _)
        · rw [if_neg hParen] at h
          injection h with h
          subst h
          exact noQ_parse_atom
      · rw [if_neg hA] at h
        injection h with h
        subst h
        exact (noQ_error (by decide)).chain noQ_advance
    · intro p q h
      simp only [parse_predicate_list_while] at h
      by_cases hC : p.current_token.text = ","
      · rw [if_pos hC] at h
        cases ht : parse_predicate fuel (p.matchTok TKind.SPECIAL (some ",")).1 with
        | none => rw [ht] at h; exact absurd h (by simp)
        | some q1 =>
          rw [ht] at h
          exact ((noQ_matchTok _ _).chain (ihP _ _ ht)).chain (ihPLW _ _ h)
      · rw [if_neg hC] at h
        injection h with h
        subst h
        exact noQ_refl
    · intro p q h
      simp only [parse_predicate_list] at h
      cases ht : parse_predicate fuel p with
      | none => rw [ht] at h; exact absurd h (by simp)
      | some q1 =>
        rw [ht] at h
        exact (ihP _ _ ht).chain (ihPLW _ _ h)
    · intro p q hguard h
      simp only [parse_query] at h
      rw [if_pos hguard] at h
      cases hpl : parse_predicate_list fuel (p.matchTok TKind.SPECIAL (some "?-")).1 with
      | none => rw [hpl] at h; exact absurd h (by simp)
      | some q1 =>
        rw [hpl] at h
        injection h with h
        subst h
        exact ((noQ_matchTok _ _).chain (ihPL _ _ hpl)).chain (noQ_matchTok _ _)
    · intro p q h
      simp only [parse_clause] at h
      cases hp : parse_predicate fuel p with
      | none => rw [hp] at h; exact absurd h (by simp)
      | some p1 =>
        rw [hp] at h
        dsimp only at h
        by_cases hDot : p1.current_token.text = "."
        · rw [if_pos hDot] at h
          injection h with h
          subst h
          exact (ihP _ _ hp).chain (noQ_matchTok _ _)
        · rw [if_neg hDot] at h
          by_cases hIf : p1.current_token.text = ":-"
          · rw [if_pos hIf] at h
            cases hpl : parse_predicate_list fuel
                (p1.matchTok TKind.SPECIAL (some ":-")).1 with
            | none => rw [hpl] at h; exact absurd h (by simp)
            | some q2 =>
              rw [hpl] at h
              injection h with h
              subst h
              exact (((ihP _ _ hp).chain (noQ_matchTok _ _)).chain
                (ihPL _ _ hpl)).chain (noQ_matchTok _ _)
          · rw [if_neg hIf] at h
            injection h with h
            subst h
            exact (ihP _ _ hp).chain
              ((noQ_error (by decide)).chain noQ_advance)
    · intro p q h
      simp only [parse_clause_list] at h
      by_cases hC : p.current_token.kind ≠ TKind.EOF ∧ p.current_token.text ≠ "?-"
      · rw [if_pos hC] at h
        cases hcl : parse_clause fuel p with
        | none => rw [hcl] at h; exact absurd h (by simp)
        | some p1 =>
          rw [hcl] at h
          exact (ihC _ _ hcl).chain (ihCL _ _ h)
      · rw [if_neg hC] at h
        injection h with h
        subst h
        exact noQ_refl
    · intro p q h
      simp only [parse_program] at h
      by_cases hQm : p.current_token.text = "?-"
      · rw [if_pos hQm] at h
        exact ihQ _ _ hQm h
      · rw [if_neg hQm] at h
        cases hcl : parse_clause_list fuel p with
        | none => rw [hcl] at h; exact absurd h (by simp)
        | some p1 =>
          rw [hcl] at h
          dsimp only at h
          by_cases hQ2 : p1.current_token.text = "?-"
          · rw [if_pos hQ2] at h
            exact (ihCL _ _ hcl).chain (ihQ _ _ hQ2 h)
          · rw [if_neg hQ2] at h
            injection h with h
            subst h
            exact ihCL _ _ hcl

/-- C10: starting from `parse_program`, the failure branch of
`parse_query` is unreachable: for every token stream and fuel, the
message "Query should start with ?-" never appears in the error list,
because `parse_query` is only invoked under the guard that the current
token's text is `?-`. -/
theorem query_start_error_unreachable (tokens : List Token) (fuel : Nat) :
    (programErrors tokens fuel).all (fun e => !(e.message == queryStartMsg)) = true := by
  rw [List.all_eq_true]
  intro e he
  have hne : e.message ≠ queryStartMsg := by
    simp only [programErrors] at he
    cases hp : parse_program fuel (mkParser tokens) with
    | none => rw [hp] at he; exact absurd he (by simp)
    | some q =>
      rw [hp] at he
      rcases (nAllGood fuel).2.2.2.2.2.2.2.2.2 _ _ hp e he with h | h
      · exact absurd h (by simp [mkParser])
      · exact h
  simpa using hne
